import Mathlib

/-!
Verification of the audio-samples-organizer repository
(`src/files.py`, `src/audio.py`, `src/alesis.py`).

The Python sources are shallowly embedded below: pure string manipulation is
modelled on `List Char` / `String`, the stateful batch orchestrator
`update_files` is modelled as a function from its inputs (walked files,
predicate, command getter, operator answer) to a record of its observable
effects (printed lines, executed commands, printed summary count, propagated
exception), and fallible operations return `Except`.  Machine integers do not
occur (audio parameters are small positive ints, modelled as `Nat`).

Python's `str` methods are Unicode-aware; the file names the repository
manipulates are treated here through the ASCII fragment of those methods
(`str.lower`, `str.title`, `str.strip`, `str.isspace`), which agrees with
CPython on every ASCII string.  The regex `[^0-9a-zA-Z]+` of
`TitleCaseSanitizerFormatter` is ASCII by definition.
-/

set_option maxHeartbeats 1000000

namespace Organizer

/-! ## Character-level model (ASCII fragment of Python's character classes) -/

/-- ASCII uppercase letter (`A`-`Z`), code points 65-90. -/
def isUpperA (c : Char) : Bool := decide (65 ≤ c.toNat ∧ c.toNat ≤ 90)

/-- ASCII lowercase letter (`a`-`z`), code points 97-122. -/
def isLowerA (c : Char) : Bool := decide (97 ≤ c.toNat ∧ c.toNat ≤ 122)

/-- ASCII digit (`0`-`9`), code points 48-57. -/
def isDigitA (c : Char) : Bool := decide (48 ≤ c.toNat ∧ c.toNat ≤ 57)

/-- ASCII letter: the character class `[a-zA-Z]`. -/
def isAlphaA (c : Char) : Bool := isUpperA c || isLowerA c

/-- The character class `[0-9a-zA-Z]` of `TitleCaseSanitizerFormatter`'s regex. -/
def isAlnumA (c : Char) : Bool := isAlphaA c || isDigitA c

/-- ASCII whitespace as recognised by Python's `str.strip`:
space, `\t`, `\n`, `\v`, `\f`, `\r` (code points 32, 9, 10, 11, 12, 13). -/
def isSpaceA (c : Char) : Bool :=
  decide (c.toNat = 32 ∨ (9 ≤ c.toNat ∧ c.toNat ≤ 13))

/-- `str.lower` on one ASCII character: map `A`-`Z` to `a`-`z`. -/
def lowerChar (c : Char) : Char := if isUpperA c then Char.ofNat (c.toNat + 32) else c

/-- `str.upper` on one ASCII character: map `a`-`z` to `A`-`Z`. -/
def upperChar (c : Char) : Char := if isLowerA c then Char.ofNat (c.toNat - 32) else c

/-! ## Python string helpers used by `files.py` -/

/-- `re.sub("[^0-9a-zA-Z]+", " ", s)` (`files.py` line 69): every maximal run
of non-alphanumeric characters is replaced by a single space.  The flag
`inRun` records whether the previous character belonged to such a run (so the
run's space has already been emitted). -/
def pySub (inRun : Bool) : List Char → List Char
  | [] => []
  | c :: cs =>
    if isAlnumA c then c :: pySub false cs
    else if inRun then pySub true cs
    else ' ' :: pySub true cs

/-- Python `str.lstrip()`: drop leading whitespace. -/
def pyLstrip (l : List Char) : List Char := l.dropWhile isSpaceA

/-- Python `str.rstrip()`: drop trailing whitespace. -/
def pyRstrip (l : List Char) : List Char := l.rdropWhile isSpaceA

/-- Python `str.strip()`: drop leading and trailing whitespace. -/
def pyStrip (l : List Char) : List Char := pyRstrip (pyLstrip l)

/-- Python `str.title()` (ASCII fragment): a letter that follows a cased
character is lower-cased, any other letter is upper-cased; non-letters are
kept and reset the word boundary.  `prevCased` records whether the previous
character was cased (for ASCII: a letter). -/
def pyTitle (prevCased : Bool) : List Char → List Char
  | [] => []
  | c :: cs =>
    if isAlphaA c then
      (if prevCased then lowerChar c else upperChar c) :: pyTitle true cs
    else c :: pyTitle false cs

/-- The character emitted by `pyTitle` for input character `c` when the
previous character was cased iff `prevCased`. -/
def titleChar (prevCased : Bool) (c : Char) : Char :=
  if isAlphaA c then (if prevCased then lowerChar c else upperChar c) else c

/-- Python `str.lower()` (ASCII fragment). -/
def pyLower (l : List Char) : List Char := l.map lowerChar

/-- `pathlib.PurePath` name splitting: the suffix of a name is its part from
the last dot on, provided that dot is neither the first nor the last
character; the stem is the rest.  (CPython: `i = name.rfind('.')`;
`if 0 < i < len(name) - 1`.) -/
def splitExt (l : List Char) : List Char × List Char :=
  if 0 < l.reverse.findIdx (· = '.') ∧ l.reverse.findIdx (· = '.') < l.length - 1 then
    ((l.reverse.drop (l.reverse.findIdx (· = '.') + 1)).reverse,
     (l.reverse.take (l.reverse.findIdx (· = '.') + 1)).reverse)
  else (l, [])

/-- `pathlib.Path(...).stem` for a file name. -/
def pathStem (name : String) : String := ⟨(splitExt name.data).1⟩

/-- `pathlib.Path(...).suffix` for a file name. -/
def pathSuffix (name : String) : String := ⟨(splitExt name.data).2⟩

/-! ## `files.py`: naming policies -/

/-- The stem half of `TitleCaseSanitizerFormatter.__call__`:
`re.sub("[^0-9a-zA-Z]+", " ", stem).strip().title()`. -/
def stemPipe (l : List Char) : List Char := pyTitle false (pyStrip (pySub false l))

/-- The suffix half of `TitleCaseSanitizerFormatter.__call__`:
`suffix.lower().strip()`. -/
def sufPipe (l : List Char) : List Char := pyStrip (pyLower l)

/-- `TitleCaseSanitizerFormatter.__call__` (`files.py` lines 67-71):
`stem = re.sub("[^0-9a-zA-Z]+", " ", file.stem).strip().title()`,
`suffix = file.suffix.lower().strip() if file.suffix else ""`,
result `stem + suffix`. -/
def titleCaseSanitizer (name : String) : String :=
  ⟨stemPipe (splitExt name.data).1 ++ sufPipe (splitExt name.data).2⟩

/-- `str.format(count=n)` for the replacement templates of
`RegexReplaceFileNameFormatter`: every occurrence of the placeholder
`{count}` is replaced by the decimal representation of `n`. -/
def fmtCount (n : Nat) : List Char → List Char
  | '{' :: 'c' :: 'o' :: 'u' :: 'n' :: 't' :: '}' :: rest => (toString n).data ++ fmtCount n rest
  | c :: rest => c :: fmtCount n rest
  | [] => []

/-- Whether a template contains the `{count}` placeholder. -/
def hasCountPlaceholder : List Char → Bool
  | '{' :: 'c' :: 'o' :: 'u' :: 'n' :: 't' :: '}' :: _ => true
  | _ :: rest => hasCountPlaceholder rest
  | [] => false

/-- String-level wrapper of `fmtCount`. -/
def pyFormatCount (s : String) (n : Nat) : String := ⟨fmtCount n s.data⟩

/-- `file.suffix.lower().strip() if file.suffix else ""` (`files.py` line 96;
for the empty suffix both branches give `""`). -/
def suffixNorm (name : String) : String := ⟨sufPipe (splitExt name.data).2⟩

/-- Python `str.endswith`. -/
def pyEndsWith (s t : String) : Bool := t.data.isSuffixOf s.data

/-- `bump_file_name`'s body after the counter increment (`files.py` lines
95-98): `stem = stem_new.format(count=counter)`;
`name = stem if stem.endswith(suffix) else (stem + suffix)`. -/
def bumpFileName (stemNew suffix : String) (counter : Nat) : String :=
  let stem := pyFormatCount stemNew counter
  if pyEndsWith stem suffix then stem else stem ++ suffix

/-- First matching pattern of `RegexReplaceFileNameFormatter.__call__`
(`files.py` lines 81-88): patterns are modelled as pairs of a match test
(`pattern.search`) and a substitution (`pattern.sub(stem_re, ·)`); the first
pattern whose test succeeds contributes its substitution result. -/
def firstMatch (patterns : List ((String → Bool) × (String → String)))
    (name : String) : Option String :=
  patterns.findSome? fun p => if p.1 name then some (p.2 name) else none

/-- The collision loop of `RegexReplaceFileNameFormatter.__call__`
(`files.py` lines 100-104): starting from `counter`, increment, build the
candidate name, and retry while a file of that name exists.  The source is a
`while` loop with no termination guarantee, so the embedding is fuel-indexed:
`none` means the loop has not returned within `fuel` iterations. -/
def bumpLoop (ex : String → Bool) (stemNew suffix : String) :
    Nat → Nat → Option (String × Nat)
  | 0, _ => none
  | fuel + 1, counter =>
    if ex (bumpFileName stemNew suffix (counter + 1)) then
      bumpLoop ex stemNew suffix fuel (counter + 1)
    else some (bumpFileName stemNew suffix (counter + 1), counter + 1)

/-- `RegexReplaceFileNameFormatter.__call__` (`files.py` lines 80-106).
`ex` is the `Path.exists` oracle (the directory's contents).  Python's
truthiness test `if stem_new:` fails for `None` and for the empty string, and
in both cases the original name is returned. -/
def regexReplaceFormatter (patterns : List ((String → Bool) × (String → String)))
    (ex : String → Bool) (fuel : Nat) (name : String) : Option String :=
  match firstMatch patterns name with
  | none => some name
  | some stemNew =>
    if stemNew = "" then some name
    else (bumpLoop ex stemNew (suffixNorm name) fuel 0).map Prod.fst

/-! ## `files.py`: rename command and getter -/

/-- `RenameFileCmdGetter.CmdRenameFile`: source and destination paths, fixed
at construction time. -/
structure CmdRenameFile where
  file : String
  file_new : String
deriving DecidableEq

/-- The fold of `RenameFileCmdGetter.get_command` (`files.py` lines 55-57):
the chain of name formatters is applied left to right, each function
receiving the name produced so far (the parent directory never changes, so
the fold is modelled at the name level). -/
def chainApply (chain : List (String → String)) (name : String) : String :=
  chain.foldl (fun n f => f n) name

/-- `RenameFileCmdGetter.get_command` (`files.py` lines 54-61): a command is
returned iff the chain changed the name. -/
def renameGetCommand (chain : List (String → String)) (name : String) :
    Option CmdRenameFile :=
  let newName := chainApply chain name
  if newName ≠ name then some ⟨name, newName⟩ else none

/-- A flat filesystem: an association list from path to file content. -/
abbrev FileSys := List (String × String)

/-- Content stored at `path`, if any. -/
def fsLookup (fs : FileSys) (path : String) : Option String :=
  match fs with
  | [] => none
  | (p, c) :: rest => if p = path then some c else fsLookup rest path

/-- POSIX semantics of the `os.rename` primitive that
`CmdRenameFile.execute` invokes (`files.py` line 49).  Per the CPython
documentation of `os.rename`: a missing source signals `FileNotFoundError`;
on Unix, "if both are files, dst will be replaced silently if the user has
permission".  (Only on Windows does an existing destination raise.) -/
def osRename (fs : FileSys) (src dst : String) : Except String FileSys :=
  match fsLookup fs src with
  | none => Except.error "FileNotFoundError"
  | some content =>
    Except.ok ((fs.filter fun p => p.1 != src && p.1 != dst) ++ [(dst, content)])

/-- `CmdRenameFile.execute` (`files.py` lines 47-49):
`os.rename(str(self.file), str(self.file_new))`. -/
def cmdRenameFileExecute (fs : FileSys) (cmd : CmdRenameFile) : Except String FileSys :=
  osRename fs cmd.file cmd.file_new

/-! ## `files.py`: the batch orchestrator `update_files` -/

/-- `answer.lower().strip()` (`files.py` line 133): the normalization the
orchestrator applies to the operator's confirmation answer. -/
def answerNorm (s : String) : String := ⟨pyStrip (pyLower s.data)⟩

/-- The `Cmd` abstraction (`files.py` lines 9-19): a user-level description
plus an `execute` action.  For the orchestrator only the observable outcome
of `execute` matters, so it is modelled by its result: `none` when the call
returns normally, `some e` when it raises exception `e`. -/
structure Cmd where
  operation_description : String
  failure : Option String
deriving DecidableEq

/-- Observable behaviour of one `update_files` call: the lines printed, the
descriptions of the commands whose `execute` returned normally (in execution
order), the count printed by the final summary line (if that line was
reached), and the exception propagated out of `update_files` (if any). -/
structure UpdateResult where
  output : List String
  executed : List String
  summary : Option Nat
  error : Option String
deriving DecidableEq

/-- The execution loop of `update_files` (`files.py` lines 134-136):
`for cmd in commands: cmd.execute(); print(f"DONE : ...")`.  An exception
from `execute` escapes the loop: the remaining commands are not attempted.
Returns (printed lines, descriptions of successfully executed commands,
escaped exception). -/
def execLoop : List Cmd → List String × List String × Option String
  | [] => ([], [], none)
  | c :: cs =>
    match c.failure with
    | some e => ([], [], some e)
    | none =>
      let r := execLoop cs
      (("DONE : " ++ c.operation_description) :: r.1,
       c.operation_description :: r.2.1, r.2.2)

/-- The discovery loop of `update_files` (`files.py` lines 113-121): walk the
files in order, keep those accepted by the predicate, ask the getter for a
command, collect the non-`None` results; an exception raised by the getter
escapes immediately. -/
def collectCmds {α : Type} (pred : α → Bool)
    (getCmd : α → Except String (Option Cmd)) : List α → Except String (List Cmd)
  | [] => Except.ok []
  | f :: fs =>
    if pred f then
      match getCmd f with
      | Except.error e => Except.error e
      | Except.ok none => collectCmds pred getCmd fs
      | Except.ok (some c) => (collectCmds pred getCmd fs).map (c :: ·)
    else collectCmds pred getCmd fs

/-- The preview/confirm/execute phase of `update_files` (`files.py` lines
123-143), given the collected commands and the operator's answer to the
confirmation prompt. -/
def confirmExec (commands : List Cmd) (answer : String) : UpdateResult :=
  if commands.isEmpty then
    ⟨["There is no operation to be performed"], [], none, none⟩
  else if answerNorm answer = "y" then
    match execLoop commands with
    | (out, ex, none) =>
      ⟨("The following operations will be performed : "
          :: commands.map (·.operation_description)) ++ out
         ++ [toString commands.length ++ " operations was performed with success."],
       ex, some commands.length, none⟩
    | (out, ex, some e) =>
      ⟨("The following operations will be performed : "
          :: commands.map (·.operation_description)) ++ out, ex, none, some e⟩
  else
    ⟨("The following operations will be performed : "
        :: commands.map (·.operation_description)) ++ ["The operation was aborted"],
     [], none, none⟩

/-- `update_files` (`files.py` lines 109-143).  `files` is the directory
walk's file sequence (in `os.walk` order), `predicate` and `getCmd` are the
caller's file filter and command getter, and `answer` is the operator's
response to the confirmation prompt. -/
def update_files {α : Type} (files : List α) (predicate : α → Bool)
    (getCmd : α → Except String (Option Cmd)) (answer : String) : UpdateResult :=
  match collectCmds predicate getCmd files with
  | Except.error e => ⟨[], [], none, some e⟩
  | Except.ok commands => confirmExec commands answer

/-! ## `audio.py` / `alesis.py`: audio policies -/

/-- Header-level audio properties read through `pydub.AudioSegment`. -/
structure AudioSegment where
  frame_rate : Nat
  sample_width : Nat
deriving DecidableEq

/-- `AudioTargetOutput` (`audio.py` lines 12-21). -/
structure AudioTargetOutput where
  format : String
  max_sample_rate_hertz : Nat
  max_sample_width_bytes : Nat
deriving DecidableEq

/-- `ALESIS_STRIKE_MULTIPAD_TARGET_OUTPUT` (`audio.py` lines 24-28). -/
def ALESIS_STRIKE_MULTIPAD_TARGET_OUTPUT : AudioTargetOutput := ⟨"wav", 44100, 2⟩

/-- `AudioScaling` (`audio.py` lines 35-61). -/
structure AudioScaling where
  audio : AudioSegment
  target_output : AudioTargetOutput
deriving DecidableEq

/-- `AudioScaling.target_sample_rate_hertz` (`audio.py` line 48). -/
def AudioScaling.target_sample_rate_hertz (s : AudioScaling) : Nat :=
  min s.audio.frame_rate s.target_output.max_sample_rate_hertz

/-- `AudioScaling.target_sample_width_bytes` (`audio.py` line 53). -/
def AudioScaling.target_sample_width_bytes (s : AudioScaling) : Nat :=
  min s.audio.sample_width s.target_output.max_sample_width_bytes

/-- `AudioScaling.needs_rescaling` (`audio.py` lines 56-61). -/
def AudioScaling.needs_rescaling (s : AudioScaling) : Bool :=
  s.target_sample_width_bytes != s.audio.sample_width
    || s.target_sample_rate_hertz != s.audio.frame_rate

/-- `AudioConversionCmdGetter.CmdConvertAudioFile` (`audio.py` lines 73-92). -/
structure CmdConvertAudioFile where
  file : String
  audio_scaling : AudioScaling
deriving DecidableEq

/-- `AudioConversionCmdGetter.get_command` (`audio.py` lines 94-109), with the
audio header already decoded from the file (the `AudioSegment.from_wav` read
is the external codec boundary). -/
def audioConversionGetCommand (target : AudioTargetOutput) (file : String)
    (audio : AudioSegment) : Option CmdConvertAudioFile :=
  let audio_scaling : AudioScaling := ⟨audio, target⟩
  if audio_scaling.needs_rescaling then some ⟨file, audio_scaling⟩ else none

/-- Modelled from the spec: `files.file_has_format`, called by
`src/audio.py` (lines 136, 154, 165, 175), is not defined anywhere under
`src/`.  The spec describes the acceptance test as "is a file and has
extension X" (§4.3) with case-insensitive extension handling, matching the
in-`src` analogue `alesis._is_supported_audio_file`
(`file.suffix.lower().strip().strip(".") == format`): the file's suffix,
lower-cased, trimmed, and with surrounding dots stripped, equals the format
name. -/
def file_has_format (name fmt : String) : Bool :=
  ((sufPipe (splitExt name.data).2).dropWhile (· == '.')).rdropWhile
    (· == '.') == fmt.data

/-- A WAV file as seen by the metadata policy: its name and its tag items
(`mutagen.wave.WAVE(...).items()`). -/
structure WavFile where
  name : String
  tags : List (String × String)

/-- `AudioMetadataDeleteCmdGetter.get_command` (`audio.py` lines 134-144):
raise `NotImplementedError` for a non-WAV file; otherwise return a
delete-metadata command iff the tag container is non-empty. -/
def audioMetadataGetCommand (f : WavFile) : Except String (Option Cmd) :=
  if ¬ file_has_format f.name "wav" then
    Except.error "Only 'wav' files are supported at the moment."
  else if ¬ f.tags.isEmpty then
    Except.ok (some ⟨"Delete metadata : " ++ toString f.tags ++ " (" ++ f.name ++ ")", none⟩)
  else Except.ok none

/-! ## Character-level lemmas -/

theorem char_toNat_ofNat {n : Nat} (h : n < 55296) : (Char.ofNat n).toNat = n := by
  rw [Char.ofNat, dif_pos (Or.inl h)]
  rfl

theorem char_eq_iff_toNat {c d : Char} : c = d ↔ c.toNat = d.toNat := by
  constructor
  · rintro rfl; rfl
  · intro h
    exact Char.ext (UInt32.toNat.inj h)

theorem isUpperA_iff {c : Char} : isUpperA c = true ↔ (65 ≤ c.toNat ∧ c.toNat ≤ 90) := by
  simp [isUpperA]

theorem isLowerA_iff {c : Char} : isLowerA c = true ↔ (97 ≤ c.toNat ∧ c.toNat ≤ 122) := by
  simp [isLowerA]

theorem lowerChar_toNat_pos {c : Char} (h : isUpperA c = true) :
    (lowerChar c).toNat = c.toNat + 32 := by
  have hb := isUpperA_iff.mp h
  unfold lowerChar
  rw [if_pos h, char_toNat_ofNat (by omega)]

theorem lowerChar_eq_self {c : Char} (h : isUpperA c = false) : lowerChar c = c := by
  unfold lowerChar
  rw [h]
  simp

theorem upperChar_toNat_pos {c : Char} (h : isLowerA c = true) :
    (upperChar c).toNat = c.toNat - 32 := by
  have hb := isLowerA_iff.mp h
  unfold upperChar
  rw [if_pos h, char_toNat_ofNat (by omega)]

theorem upperChar_eq_self {c : Char} (h : isLowerA c = false) : upperChar c = c := by
  unfold upperChar
  rw [h]
  simp

theorem lowerChar_lowerChar (c : Char) : lowerChar (lowerChar c) = lowerChar c := by
  by_cases h : isUpperA c = true
  · have h1 := lowerChar_toNat_pos h
    have hb := isUpperA_iff.mp h
    refine lowerChar_eq_self ?_
    simp only [isUpperA, decide_eq_false_iff_not]
    omega
  · rw [lowerChar_eq_self (Bool.eq_false_iff.mpr h)]
    exact lowerChar_eq_self (Bool.eq_false_iff.mpr h)

theorem upperChar_upperChar (c : Char) : upperChar (upperChar c) = upperChar c := by
  by_cases h : isLowerA c = true
  · have h1 := upperChar_toNat_pos h
    have hb := isLowerA_iff.mp h
    refine upperChar_eq_self ?_
    simp only [isLowerA, decide_eq_false_iff_not]
    omega
  · rw [upperChar_eq_self (Bool.eq_false_iff.mpr h)]
    exact upperChar_eq_self (Bool.eq_false_iff.mpr h)

theorem isAlphaA_lowerChar (c : Char) : isAlphaA (lowerChar c) = isAlphaA c := by
  by_cases h : isUpperA c = true
  · have h1 := lowerChar_toNat_pos h
    have hb := isUpperA_iff.mp h
    simp only [isAlphaA, isUpperA, isLowerA, h1]
    rw [Bool.eq_iff_iff]
    simp only [Bool.or_eq_true, decide_eq_true_eq]
    omega
  · rw [lowerChar_eq_self (Bool.eq_false_iff.mpr h)]

theorem isAlphaA_upperChar (c : Char) : isAlphaA (upperChar c) = isAlphaA c := by
  by_cases h : isLowerA c = true
  · have h1 := upperChar_toNat_pos h
    have hb := isLowerA_iff.mp h
    simp only [isAlphaA, isUpperA, isLowerA, h1]
    rw [Bool.eq_iff_iff]
    simp only [Bool.or_eq_true, decide_eq_true_eq]
    omega
  · rw [upperChar_eq_self (Bool.eq_false_iff.mpr h)]

theorem isAlnumA_lowerChar (c : Char) : isAlnumA (lowerChar c) = isAlnumA c := by
  by_cases h : isUpperA c = true
  · have h1 := lowerChar_toNat_pos h
    have hb := isUpperA_iff.mp h
    simp only [isAlnumA, isAlphaA, isUpperA, isLowerA, isDigitA, h1]
    rw [Bool.eq_iff_iff]
    simp only [Bool.or_eq_true, decide_eq_true_eq]
    omega
  · rw [lowerChar_eq_self (Bool.eq_false_iff.mpr h)]

theorem isAlnumA_upperChar (c : Char) : isAlnumA (upperChar c) = isAlnumA c := by
  by_cases h : isLowerA c = true
  · have h1 := upperChar_toNat_pos h
    have hb := isLowerA_iff.mp h
    simp only [isAlnumA, isAlphaA, isUpperA, isLowerA, isDigitA, h1]
    rw [Bool.eq_iff_iff]
    simp only [Bool.or_eq_true, decide_eq_true_eq]
    omega
  · rw [upperChar_eq_self (Bool.eq_false_iff.mpr h)]

theorem isSpaceA_lowerChar (c : Char) : isSpaceA (lowerChar c) = isSpaceA c := by
  by_cases h : isUpperA c = true
  · have h1 := lowerChar_toNat_pos h
    have hb := isUpperA_iff.mp h
    simp only [isSpaceA, h1]
    simp only [decide_eq_decide]
    omega
  · rw [lowerChar_eq_self (Bool.eq_false_iff.mpr h)]

theorem isSpaceA_upperChar (c : Char) : isSpaceA (upperChar c) = isSpaceA c := by
  by_cases h : isLowerA c = true
  · have h1 := upperChar_toNat_pos h
    have hb := isLowerA_iff.mp h
    simp only [isSpaceA, h1]
    simp only [decide_eq_decide]
    omega
  · rw [upperChar_eq_self (Bool.eq_false_iff.mpr h)]

theorem not_isSpaceA_of_isAlnumA {c : Char} (h : isAlnumA c = true) : isSpaceA c = false := by
  simp only [isAlnumA, isAlphaA, isUpperA, isLowerA, isDigitA, Bool.or_eq_true,
    decide_eq_true_eq] at h
  simp only [isSpaceA, decide_eq_false_iff_not]
  omega

theorem lowerChar_ne_dot {c : Char} (h : c ≠ '.') : lowerChar c ≠ '.' := by
  by_cases hu : isUpperA c = true
  · have h1 := lowerChar_toNat_pos hu
    have hb := isUpperA_iff.mp hu
    intro he
    rw [char_eq_iff_toNat] at he
    rw [h1] at he
    have : ('.' : Char).toNat = 46 := by decide
    omega
  · rw [lowerChar_eq_self (Bool.eq_false_iff.mpr hu)]
    exact h

/-! ## Lemmas about the string pipeline of `TitleCaseSanitizerFormatter` -/

theorem rdropWhile_cons_eq {α : Type} [DecidableEq α] (p : α → Bool) (a : α) (l : List α) :
    (a :: l).rdropWhile p =
      if l.rdropWhile p = [] then (if p a then [] else [a]) else a :: l.rdropWhile p := by
  unfold List.rdropWhile
  rw [List.reverse_cons, List.dropWhile_append]
  by_cases h : l.reverse.dropWhile p = []
  · by_cases hp : p a = true
    · simp [h, hp, List.dropWhile_cons]
    · simp [h, hp, List.dropWhile_cons]
  · simp only [h, List.isEmpty_iff, List.reverse_eq_nil_iff, if_false, iff_false,
      List.reverse_append, List.reverse_cons, List.reverse_nil, List.nil_append,
      List.singleton_append]

theorem rdropWhile_eq_nil_iff_all {α : Type} (p : α → Bool) (l : List α) :
    l.rdropWhile p = [] ↔ ∀ c ∈ l, p c = true := by
  rw [List.rdropWhile_eq_nil_iff]

theorem pySub_chars (l : List Char) :
    ∀ (b : Bool), ∀ c ∈ pySub b l, isAlnumA c = true ∨ c = ' ' := by
  induction l with
  | nil => intro b c hc; simp [pySub] at hc
  | cons d ds ih =>
    intro b c hc
    by_cases hd : isAlnumA d = true
    · rw [pySub, if_pos hd] at hc
      rcases List.mem_cons.mp hc with h | h
      · exact h ▸ Or.inl hd
      · exact ih false c h
    · rw [pySub, if_neg hd] at hc
      cases b with
      | true =>
        rw [if_pos rfl] at hc
        exact ih true c hc
      | false =>
        rw [if_neg (by simp)] at hc
        rcases List.mem_cons.mp hc with h | h
        · exact Or.inr h
        · exact ih true c h

theorem pySub_true_head (l : List Char) :
    ∀ c cs, pySub true l = c :: cs → isAlnumA c = true := by
  induction l with
  | nil => intro c cs h; simp [pySub] at h
  | cons d ds ih =>
    intro c cs h
    by_cases hd : isAlnumA d = true
    · rw [pySub, if_pos hd] at h
      cases h
      exact hd
    · rw [pySub, if_neg hd, if_pos rfl] at h
      exact ih c cs h

theorem pySub_pySub (l : List Char) : ∀ b : Bool, pySub b (pySub b l) = pySub b l := by
  induction l with
  | nil => intro b; simp [pySub]
  | cons d ds ih =>
    intro b
    by_cases hd : isAlnumA d = true
    · rw [pySub, if_pos hd, pySub, if_pos hd, ih false]
    · cases b with
      | true =>
        rw [pySub, if_neg hd, if_pos rfl]
        exact ih true
      | false =>
        rw [pySub, if_neg hd, if_neg (by simp)]
        have hsp : isAlnumA ' ' = false := by decide
        rw [pySub, if_neg (by simp [hsp]), if_neg (by simp)]
        rw [ih true]

theorem pySub_fix_lstrip {y : List Char} (b : Bool) (h : pySub b y = y) :
    pySub b (pyLstrip y) = pyLstrip y := by
  cases y with
  | nil => rfl
  | cons c t =>
    by_cases hc : isSpaceA c = true
    · have hca : isAlnumA c = false := by
        cases ha : isAlnumA c with
        | false => rfl
        | true => rw [not_isSpaceA_of_isAlnumA ha] at hc; cases hc
      cases b with
      | true =>
        exfalso
        rw [pySub, if_neg (by simp [hca]), if_pos rfl] at h
        have := pySub_true_head t c t h
        rw [hca] at this
        cases this
      | false =>
        rw [pySub, if_neg (by simp [hca]), if_neg (by simp)] at h
        have hcsp : c = ' ' := by
          have := List.cons.inj h
          exact this.1.symm
        have ht : pySub true t = t := (List.cons.inj h).2
        rw [pyLstrip, List.dropWhile_cons, if_pos hc]
        cases t with
        | nil => simp [List.dropWhile, pySub]
        | cons e es =>
          have he : isAlnumA e = true := pySub_true_head (e :: es) e es ht
          have hesp : isSpaceA e = false := not_isSpaceA_of_isAlnumA he
          rw [List.dropWhile_cons, if_neg (by simp [hesp])]
          rw [pySub, if_pos he] at ht ⊢
          rw [(List.cons.inj ht).2]
    · rw [pyLstrip, List.dropWhile_cons, if_neg (by simp [hc])]
      exact h

theorem pySub_fix_rstrip {y : List Char} : ∀ b : Bool, pySub b y = y →
    pySub b (pyRstrip y) = pyRstrip y := by
  induction y with
  | nil =>
    intro b _
    simp only [pyRstrip, List.rdropWhile, List.reverse_nil, List.dropWhile_nil]
    rfl
  | cons c t ih =>
    intro b h
    rw [pyRstrip, rdropWhile_cons_eq]
    by_cases hc : isAlnumA c = true
    · rw [pySub, if_pos hc] at h
      have ht : pySub false t = t := (List.cons.inj h).2
      by_cases hrt : t.rdropWhile isSpaceA = []
      · rw [if_pos hrt]
        have hcsp : isSpaceA c = false := not_isSpaceA_of_isAlnumA hc
        rw [if_neg (by simp [hcsp])]
        simp [pySub, hc]
      · rw [if_neg hrt]
        have := ih false ht
        rw [pyRstrip] at this
        rw [pySub, if_pos hc, this]
    · cases b with
      | true =>
        exfalso
        rw [pySub, if_neg hc, if_pos rfl] at h
        cases t with
        | nil => simp [pySub] at h
        | cons e es =>
          have := pySub_true_head (e :: es) c (e :: es) h
          rw [this] at hc
          exact hc rfl
      | false =>
        rw [pySub, if_neg hc, if_neg (by simp)] at h
        have hcsp : c = ' ' := (List.cons.inj h).1.symm
        have ht : pySub true t = t := (List.cons.inj h).2
        by_cases hrt : t.rdropWhile isSpaceA = []
        · rw [if_pos hrt]
          subst hcsp
          rw [if_pos (by decide)]
          simp [pySub]
        · rw [if_neg hrt]
          have := ih true ht
          rw [pyRstrip] at this
          conv_lhs => rw [pySub]
          rw [if_neg hc, if_neg (by simp), this, hcsp]

theorem pyTitle_cons (b : Bool) (c : Char) (cs : List Char) :
    pyTitle b (c :: cs) = titleChar b c :: pyTitle (isAlphaA c) cs := by
  cases h : isAlphaA c <;> simp [pyTitle, titleChar, h]

theorem pyTitle_eq_nil {b : Bool} {l : List Char} : pyTitle b l = [] ↔ l = [] := by
  cases l with
  | nil => simp [pyTitle]
  | cons c cs => simp [pyTitle_cons]

theorem isAlphaA_titleChar (b : Bool) (c : Char) : isAlphaA (titleChar b c) = isAlphaA c := by
  cases b <;> by_cases h : isAlphaA c = true <;>
    simp [titleChar, h, isAlphaA_lowerChar, isAlphaA_upperChar]

theorem isAlnumA_titleChar (b : Bool) (c : Char) : isAlnumA (titleChar b c) = isAlnumA c := by
  cases b <;> by_cases h : isAlphaA c = true <;>
    simp [titleChar, h, isAlnumA_lowerChar, isAlnumA_upperChar]

theorem isSpaceA_titleChar (b : Bool) (c : Char) : isSpaceA (titleChar b c) = isSpaceA c := by
  cases b <;> by_cases h : isAlphaA c = true <;>
    simp [titleChar, h, isSpaceA_lowerChar, isSpaceA_upperChar]

theorem titleChar_titleChar (b : Bool) (c : Char) :
    titleChar b (titleChar b c) = titleChar b c := by
  cases b with
  | true =>
    by_cases h : isAlphaA c = true
    · have e1 : titleChar true c = lowerChar c := by simp [titleChar, h]
      have h2 : isAlphaA (lowerChar c) = true := by rw [isAlphaA_lowerChar]; exact h
      rw [e1]
      simp [titleChar, h2, lowerChar_lowerChar]
    · simp [titleChar, h]
  | false =>
    by_cases h : isAlphaA c = true
    · have e1 : titleChar false c = upperChar c := by simp [titleChar, h]
      have h2 : isAlphaA (upperChar c) = true := by rw [isAlphaA_upperChar]; exact h
      rw [e1]
      simp [titleChar, h2, upperChar_upperChar]
    · simp [titleChar, h]

theorem pyTitle_idem (l : List Char) : ∀ b : Bool, pyTitle b (pyTitle b l) = pyTitle b l := by
  induction l with
  | nil => intro b; rfl
  | cons c cs ih =>
    intro b
    rw [pyTitle_cons, pyTitle_cons, titleChar_titleChar, isAlphaA_titleChar, ih (isAlphaA c)]

theorem pyTitle_chars {l : List Char}
    (h : ∀ c ∈ l, isAlnumA c = true ∨ c = ' ') :
    ∀ b : Bool, ∀ c ∈ pyTitle b l, isAlnumA c = true ∨ c = ' ' := by
  induction l with
  | nil => intro b c hc; simp [pyTitle] at hc
  | cons d ds ih =>
    intro b c hc
    rw [pyTitle_cons] at hc
    rcases List.mem_cons.mp hc with hcc | hcc
    · subst hcc
      rcases h d (List.mem_cons_self d ds) with hd | hd
      · rw [isAlnumA_titleChar]
        exact Or.inl hd
      · subst hd
        right
        unfold titleChar
        rw [if_neg (by decide)]
    · exact ih (fun e he => h e (List.mem_cons_of_mem d he)) (isAlphaA d) c hcc

theorem dropWhile_ne_cons_self {α : Type} {p : α → Bool} {c : α} {t : List α} :
    t.dropWhile p ≠ c :: t := by
  intro h
  have hle : (t.dropWhile p).length ≤ t.length := (List.dropWhile_sublist p).length_le
  rw [h] at hle
  simp at hle

theorem pySub_fix_title {z : List Char} : ∀ (bs bt : Bool), pySub bs z = z →
    pySub bs (pyTitle bt z) = pyTitle bt z := by
  induction z with
  | nil => intro bs bt _; rfl
  | cons c t ih =>
    intro bs bt h
    by_cases hc : isAlnumA c = true
    · rw [pySub, if_pos hc] at h
      have ht : pySub false t = t := (List.cons.inj h).2
      rw [pyTitle_cons]
      have hc2 : isAlnumA (titleChar bt c) = true := by rw [isAlnumA_titleChar]; exact hc
      rw [pySub, if_pos hc2, ih false (isAlphaA c) ht]
    · cases bs with
      | true =>
        exfalso
        rw [pySub, if_neg hc, if_pos rfl] at h
        cases ht : pySub true t with
        | nil => rw [ht] at h; exact (List.cons_ne_nil c t) h.symm
        | cons e es =>
          rw [ht] at h
          have he := pySub_true_head t e es ht
          rw [(List.cons.inj h).1] at he
          rw [he] at hc
          exact hc rfl
      | false =>
        rw [pySub, if_neg hc, if_neg (by simp)] at h
        have hcsp : c = ' ' := (List.cons.inj h).1.symm
        have ht : pySub true t = t := (List.cons.inj h).2
        subst hcsp
        rw [pyTitle_cons]
        have e1 : titleChar bt ' ' = ' ' := by unfold titleChar; rw [if_neg (by decide)]
        rw [e1]
        have hsp : isAlnumA ' ' = false := by decide
        rw [pySub, if_neg (by simp [hsp]), if_neg (by simp)]
        have e2 : isAlphaA ' ' = false := by decide
        rw [e2, ih true false ht]

theorem pyLstrip_fix_title {z : List Char} (b : Bool) (h : pyLstrip z = z) :
    pyLstrip (pyTitle b z) = pyTitle b z := by
  cases z with
  | nil => rfl
  | cons c t =>
    by_cases hc : isSpaceA c = true
    · exfalso
      rw [pyLstrip, List.dropWhile_cons, if_pos hc] at h
      exact dropWhile_ne_cons_self h
    · rw [pyTitle_cons, pyLstrip, List.dropWhile_cons,
        if_neg (by rw [isSpaceA_titleChar]; simp [hc])]

theorem pyRstrip_fix_title {z : List Char} : ∀ b : Bool, pyRstrip z = z →
    pyRstrip (pyTitle b z) = pyTitle b z := by
  induction z with
  | nil => intro b _; rfl
  | cons c t ih =>
    intro b h
    rw [pyRstrip, rdropWhile_cons_eq] at h
    by_cases hrt : t.rdropWhile isSpaceA = []
    · rw [if_pos hrt] at h
      by_cases hc : isSpaceA c = true
      · rw [if_pos hc] at h
        exact absurd h.symm (List.cons_ne_nil c t)
      · rw [if_neg hc] at h
        have ht : t = [] := ((List.cons.inj h).2).symm
        subst ht
        rw [pyTitle_cons, pyRstrip, rdropWhile_cons_eq]
        rw [if_pos (by rw [List.rdropWhile_eq_nil_iff]; intro x hx; cases hx)]
        rw [if_neg (by rw [isSpaceA_titleChar]; simp [hc])]
        rfl
    · rw [if_neg hrt] at h
      have ht : t.rdropWhile isSpaceA = t := (List.cons.inj h).2
      have htne : t ≠ [] := by
        intro he
        subst he
        exact hrt (by rw [List.rdropWhile_eq_nil_iff]; intro x hx; cases hx)
      have iht := ih (isAlphaA c) (by rw [pyRstrip]; exact ht)
      rw [pyRstrip] at iht
      rw [pyTitle_cons, pyRstrip, rdropWhile_cons_eq]
      have hne2 : (pyTitle (isAlphaA c) t).rdropWhile isSpaceA ≠ [] := by
        rw [iht]
        exact fun hh => htne (pyTitle_eq_nil.mp hh)
      rw [if_neg hne2, iht]

theorem pyLstrip_idem (l : List Char) : pyLstrip (pyLstrip l) = pyLstrip l :=
  List.dropWhile_idempotent isSpaceA l

theorem pyRstrip_idem (l : List Char) : pyRstrip (pyRstrip l) = pyRstrip l :=
  List.rdropWhile_idempotent isSpaceA l

theorem pyLstrip_fix_rstrip {x : List Char} (h : pyLstrip x = x) :
    pyLstrip (pyRstrip x) = pyRstrip x := by
  cases hx : pyRstrip x with
  | nil => rfl
  | cons a as =>
    have hp := List.rdropWhile_prefix isSpaceA x
    rw [pyRstrip] at hx
    rw [hx] at hp
    obtain ⟨ts, hts⟩ := hp
    rw [List.cons_append] at hts
    by_cases ha : isSpaceA a = true
    · exfalso
      rw [← hts, pyLstrip, List.dropWhile_cons, if_pos ha] at h
      exact dropWhile_ne_cons_self h
    · rw [pyLstrip, List.dropWhile_cons, if_neg (by simp [ha])]

theorem pyStrip_idem (l : List Char) : pyStrip (pyStrip l) = pyStrip l := by
  show pyRstrip (pyLstrip (pyRstrip (pyLstrip l))) = pyRstrip (pyLstrip l)
  rw [pyLstrip_fix_rstrip (pyLstrip_idem l), pyRstrip_idem]

theorem pyLstrip_pyStrip (l : List Char) : pyLstrip (pyStrip l) = pyStrip l :=
  pyLstrip_fix_rstrip (pyLstrip_idem l)

theorem pyRstrip_pyStrip (l : List Char) : pyRstrip (pyStrip l) = pyStrip l :=
  pyRstrip_idem (pyLstrip l)

theorem pySub_fix_pstrip {y : List Char} (b : Bool) (h : pySub b y = y) :
    pySub b (pyStrip y) = pyStrip y :=
  pySub_fix_rstrip b (pySub_fix_lstrip b h)

theorem stemPipe_idem (x : List Char) : stemPipe (stemPipe x) = stemPipe x := by
  have h1 : pySub false (pyStrip (pySub false x)) = pyStrip (pySub false x) :=
    pySub_fix_pstrip false (pySub_pySub x false)
  have h2 : pySub false (stemPipe x) = stemPipe x := pySub_fix_title false false h1
  show pyTitle false (pyStrip (pySub false (stemPipe x))) = stemPipe x
  rw [h2]
  have h3 : pyLstrip (stemPipe x) = stemPipe x :=
    pyLstrip_fix_title false (pyLstrip_pyStrip (pySub false x))
  have h4 : pyRstrip (stemPipe x) = stemPipe x :=
    pyRstrip_fix_title false (pyRstrip_pyStrip (pySub false x))
  have h5 : pyStrip (stemPipe x) = stemPipe x := by
    show pyRstrip (pyLstrip (stemPipe x)) = stemPipe x
    rw [h3, h4]
  rw [h5]
  exact pyTitle_idem (pyStrip (pySub false x)) false

/-! ## Lemmas about `splitExt` (pathlib stem/suffix) -/

theorem splitExt_no_dot {l : List Char} (h : '.' ∉ l) : splitExt l = (l, []) := by
  unfold splitExt
  have hidx : l.reverse.findIdx (· = '.') = l.reverse.length := by
    apply List.findIdx_eq_length_of_false
    intro x hx
    simp only [decide_eq_false_iff_not]
    intro he
    subst he
    exact h (List.mem_reverse.mp hx)
  rw [if_neg]
  rw [hidx, List.length_reverse]
  omega

theorem splitExt_append : (splitExt l).1 ++ (splitExt l).2 = l := by
  unfold splitExt
  by_cases h : 0 < l.reverse.findIdx (· = '.') ∧ l.reverse.findIdx (· = '.') < l.length - 1
  · rw [if_pos h]
    simp only
    rw [← List.reverse_append, List.take_append_drop, List.reverse_reverse]
  · rw [if_neg h]
    simp

theorem splitExt_suffix_struct (l : List Char) :
    (splitExt l).2 = [] ∨
      ∃ r, (splitExt l).2 = '.' :: r ∧ r ≠ [] ∧ '.' ∉ r := by
  unfold splitExt
  by_cases h : 0 < l.reverse.findIdx (· = '.') ∧ l.reverse.findIdx (· = '.') < l.length - 1
  · rw [if_pos h]
    right
    have hlt : l.reverse.findIdx (· = '.') < l.reverse.length := by
      rw [List.length_reverse]
      omega
    have hdot : l.reverse[l.reverse.findIdx (· = '.')] = '.' := by
      have := @List.findIdx_getElem Char (· = '.') l.reverse hlt
      simpa using this
    refine ⟨(l.reverse.take (l.reverse.findIdx (· = '.'))).reverse, ?_, ?_, ?_⟩
    · simp only
      rw [List.take_succ, List.getElem?_eq_getElem hlt, hdot]
      simp
    · simp only [ne_eq, List.reverse_eq_nil_iff]
      intro he
      have : (l.reverse.take (l.reverse.findIdx (· = '.'))).length = 0 := by
        rw [he]; rfl
      rw [List.length_take] at this
      omega
    · intro hm
      rw [List.mem_reverse, List.mem_iff_getElem?] at hm
      obtain ⟨j, hj⟩ := hm
      have hjlen : j < (l.reverse.take (l.reverse.findIdx (· = '.'))).length := by
        by_contra hc
        rw [List.getElem?_eq_none (by omega)] at hj
        cases hj
      rw [List.length_take] at hjlen
      have hjlt : j < l.reverse.findIdx (· = '.') := by omega
      rw [List.getElem?_take_of_lt hjlt] at hj
      have hjlt2 : j < l.reverse.length := by omega
      rw [List.getElem?_eq_getElem hjlt2] at hj
      have := List.not_of_lt_findIdx hjlt
      rw [Option.some.injEq] at hj
      rw [hj] at this
      simp at this
  · rw [if_neg h]
    exact Or.inl rfl

theorem splitExt_append_dot {s r : List Char} (hs : s ≠ []) (hr : r ≠ [])
    (hdr : '.' ∉ r) : splitExt (s ++ '.' :: r) = (s, '.' :: r) := by
  have hrev : (s ++ '.' :: r).reverse = (r.reverse ++ ['.']) ++ s.reverse := by
    rw [List.reverse_append, List.reverse_cons, List.append_assoc]
  have h1 : r.reverse.findIdx (· = '.') = r.reverse.length := by
    apply List.findIdx_eq_length_of_false
    intro x hx
    simp only [decide_eq_false_iff_not]
    intro he
    subst he
    exact hdr (List.mem_reverse.mp hx)
  have hin : (r.reverse ++ ['.']).findIdx (· = '.') = r.length := by
    rw [List.findIdx_append, h1]
    have h2 : List.findIdx (fun x => decide (x = '.')) ['.'] = 0 := by decide
    simp [h2]
  have hidx : (s ++ '.' :: r).reverse.findIdx (· = '.') = r.length := by
    rw [hrev, List.findIdx_append, hin]
    rw [if_pos (by simp)]
  have hslen : 0 < s.length := List.length_pos.mpr hs
  have hrlen : 0 < r.length := List.length_pos.mpr hr
  unfold splitExt
  rw [hidx]
  rw [if_pos (by constructor; omega; simp [List.length_append]; omega)]
  have htake : (s ++ '.' :: r).reverse.take (r.length + 1) = r.reverse ++ ['.'] := by
    rw [hrev]
    exact List.take_left' (by simp)
  have hdrop : (s ++ '.' :: r).reverse.drop (r.length + 1) = s.reverse := by
    rw [hrev]
    exact List.drop_left' (by simp)
  rw [htake, hdrop, List.reverse_reverse, List.reverse_append, List.reverse_reverse]
  rfl

/-! ## The two halves of the sanitizer and their fixed points -/

theorem mem_pyRstrip {c : Char} {l : List Char} (h : c ∈ pyRstrip l) : c ∈ l := by
  have hp := List.rdropWhile_prefix isSpaceA l
  exact hp.sublist.mem h

theorem mem_pyStrip {c : Char} {l : List Char} (h : c ∈ pyStrip l) : c ∈ l := by
  have h1 : c ∈ pyLstrip l := mem_pyRstrip h
  exact (show List.Sublist (l.dropWhile isSpaceA) l from List.dropWhile_sublist isSpaceA).mem h1

theorem stemPipe_chars {x : List Char} : ∀ c ∈ stemPipe x, isAlnumA c = true ∨ c = ' ' := by
  intro c hc
  refine pyTitle_chars ?_ false c hc
  intro d hd
  exact pySub_chars x false d (mem_pyStrip hd)

theorem stemPipe_no_dot (x : List Char) : '.' ∉ stemPipe x := by
  intro h
  rcases stemPipe_chars '.' h with h1 | h1
  · have : isAlnumA '.' = false := by decide
    rw [this] at h1
    cases h1
  · cases h1

theorem lowerChar_fix_of_mem_pyLower {c : Char} {l : List Char} (h : c ∈ pyLower l) :
    lowerChar c = c := by
  obtain ⟨d, _, hd⟩ := List.mem_map.mp h
  rw [← hd, lowerChar_lowerChar]

theorem pyLower_fix_of_all {l : List Char} (h : ∀ c ∈ l, lowerChar c = c) :
    pyLower l = l :=
  (List.map_congr_left h).trans (List.map_id l)

theorem sufPipe_nil : sufPipe [] = [] := rfl

/-- For a non-empty pathlib suffix `'.' :: rest`, `sufPipe` yields
`'.' :: pyRstrip (pyLower rest)` unless the result degenerates to `['.']`. -/
theorem sufPipe_dot_cons (rest : List Char) :
    sufPipe ('.' :: rest) =
      if pyRstrip (pyLower rest) = [] then ['.']
      else '.' :: pyRstrip (pyLower rest) := by
  show pyStrip (pyLower ('.' :: rest)) = _
  have h1 : pyLower ('.' :: rest) = '.' :: pyLower rest := by
    show lowerChar '.' :: pyLower rest = _
    rw [show lowerChar '.' = '.' from by decide]
  rw [h1]
  have h2 : pyLstrip ('.' :: pyLower rest) = '.' :: pyLower rest := by
    rw [pyLstrip, List.dropWhile_cons, if_neg (by decide)]
  show pyRstrip (pyLstrip ('.' :: pyLower rest)) = _
  rw [h2, pyRstrip, rdropWhile_cons_eq]
  by_cases h3 : (pyLower rest).rdropWhile isSpaceA = []
  · rw [if_pos h3, if_neg (by decide)]
    rw [pyRstrip]
    rw [if_pos h3]
  · rw [if_neg h3, if_neg (by rw [pyRstrip]; exact h3)]
    rfl

theorem sufPipe_fix_dot_cons {r : List Char} (hr : pyRstrip r = r)
    (hlow : pyLower r = r) (hne : r ≠ []) : sufPipe ('.' :: r) = '.' :: r := by
  rw [sufPipe_dot_cons, hlow, hr, if_neg hne]

theorem titleCaseSanitizer_mk (l : List Char) :
    titleCaseSanitizer ⟨l⟩ = ⟨stemPipe (splitExt l).1 ++ sufPipe (splitExt l).2⟩ := rfl

/-- C7 (amended): the Sanitize-TitleCase naming policy is idempotent for
every file name whose sanitized title-cased stem is non-empty and whose
lower-cased, trimmed suffix is not the bare dot `"."`; on such names a second
application of `TitleCaseSanitizerFormatter` is the identity. -/
theorem titleCaseSanitizer_idem_cond (name : String)
    (hstem : stemPipe (splitExt name.data).1 ≠ [])
    (hsuf : sufPipe (splitExt name.data).2 ≠ ['.']) :
    titleCaseSanitizer (titleCaseSanitizer name) = titleCaseSanitizer name := by
  rcases splitExt_suffix_struct name.data with hsu | ⟨rest, hsu, hrne, hrdot⟩
  · have h1 : titleCaseSanitizer name = ⟨stemPipe (splitExt name.data).1⟩ := by
      unfold titleCaseSanitizer
      rw [hsu, sufPipe_nil, List.append_nil]
    rw [h1, titleCaseSanitizer_mk]
    apply congrArg String.mk
    simp only [splitExt_no_dot (stemPipe_no_dot (splitExt name.data).1), stemPipe_idem,
      sufPipe_nil, List.append_nil]
  · by_cases hrr : pyRstrip (pyLower rest) = []
    · exfalso
      apply hsuf
      rw [hsu, sufPipe_dot_cons, if_pos hrr]
    · have hrlow : pyLower (pyRstrip (pyLower rest)) = pyRstrip (pyLower rest) :=
        pyLower_fix_of_all (fun c hc => lowerChar_fix_of_mem_pyLower (mem_pyRstrip hc))
      have hrfix : pyRstrip (pyRstrip (pyLower rest)) = pyRstrip (pyLower rest) :=
        pyRstrip_idem (pyLower rest)
      have hrdot2 : '.' ∉ pyRstrip (pyLower rest) := by
        intro hmem
        obtain ⟨d, hd, hld⟩ := List.mem_map.mp (mem_pyRstrip hmem)
        have hdne : d ≠ '.' := fun he => hrdot (he ▸ hd)
        exact lowerChar_ne_dot hdne hld
      have h1 : titleCaseSanitizer name
          = ⟨stemPipe (splitExt name.data).1 ++ '.' :: pyRstrip (pyLower rest)⟩ := by
        unfold titleCaseSanitizer
        rw [hsu, sufPipe_dot_cons, if_neg hrr]
      rw [h1, titleCaseSanitizer_mk]
      apply congrArg String.mk
      simp only [splitExt_append_dot hstem hrr hrdot2, stemPipe_idem,
        sufPipe_fix_dot_cons hrfix hrlow hrr]

/-- C7 (counterexample): the Sanitize-TitleCase policy is not idempotent as
claimed: for the name `"!!!.wav"` the first application yields `".wav"`
(the sanitized stem is empty and pathlib treats `".wav"` as pure stem), and
the second application yields `"Wav"`. -/
theorem titleCaseSanitizer_not_idempotent_cex :
    titleCaseSanitizer "!!!.wav" = ".wav" ∧ titleCaseSanitizer ".wav" = "Wav" ∧
    titleCaseSanitizer (titleCaseSanitizer "!!!.wav") ≠ titleCaseSanitizer "!!!.wav" := by
  refine ⟨by decide, by decide, by decide⟩

/-- Witness for C7's amended theorem at the concrete name `"my song!!.WAV"`
(whose sanitized form is `"My Song.wav"`). -/
theorem titleCaseSanitizer_idem_cond_witness :
    stemPipe (splitExt ("my song!!.WAV").data).1 ≠ [] ∧
    sufPipe (splitExt ("my song!!.WAV").data).2 ≠ ['.'] ∧
    titleCaseSanitizer (titleCaseSanitizer "my song!!.WAV") = titleCaseSanitizer "my song!!.WAV" :=
  ⟨by decide, by decide, titleCaseSanitizer_idem_cond "my song!!.WAV" (by decide) (by decide)⟩

/-! ## Lemmas about the batch orchestrator -/

theorem collectCmds_trivial (cmds : List Cmd) :
    collectCmds (fun _ => true) (fun c => Except.ok (some c)) cmds = Except.ok cmds := by
  induction cmds with
  | nil => rfl
  | cons c cs ih => simp [collectCmds, ih, Except.map]

theorem execLoop_all_ok {cmds : List Cmd} (h : ∀ c ∈ cmds, c.failure = none) :
    execLoop cmds = (cmds.map (fun c => "DONE : " ++ c.operation_description),
                     cmds.map (·.operation_description), none) := by
  induction cmds with
  | nil => rfl
  | cons c cs ih =>
    have hc : c.failure = none := h c (List.mem_cons_self c cs)
    simp [execLoop, hc, ih (fun d hd => h d (List.mem_cons_of_mem c hd))]

theorem execLoop_no_error {cmds : List Cmd} {out ex : List String}
    (h : execLoop cmds = (out, ex, none)) :
    ex = cmds.map (·.operation_description)
      ∧ out = cmds.map (fun c => "DONE : " ++ c.operation_description) := by
  induction cmds generalizing out ex with
  | nil =>
    rw [execLoop] at h
    simp only [Prod.mk.injEq] at h
    exact ⟨h.2.1.symm, h.1.symm⟩
  | cons c cs ih =>
    cases hc : c.failure with
    | some e =>
      rw [execLoop, hc] at h
      simp only [Prod.mk.injEq] at h
      exact absurd h.2.2 (by simp)
    | none =>
      rcases hcs : execLoop cs with ⟨o1, e1, er⟩
      rw [execLoop, hc, hcs] at h
      simp only [Prod.mk.injEq] at h
      obtain ⟨ho, he, hr⟩ := h
      subst hr
      obtain ⟨ha, hb⟩ := ih hcs
      subst ha hb
      rw [← ho, ← he]
      simp

theorem execLoop_append_fail {pre : List Cmd} {c : Cmd} {post : List Cmd} {e : String}
    (hpre : ∀ d ∈ pre, d.failure = none) (hc : c.failure = some e) :
    execLoop (pre ++ c :: post) =
      (pre.map (fun d => "DONE : " ++ d.operation_description),
       pre.map (·.operation_description), some e) := by
  induction pre with
  | nil => simp [execLoop, hc]
  | cons d ds ih =>
    have hd : d.failure = none := hpre d (List.mem_cons_self d ds)
    simp [execLoop, hd, ih (fun x hx => hpre x (List.mem_cons_of_mem d hx))]

/-! ## Claim theorems: orchestrator (C1, C2, C3, C6) -/

theorem update_files_ok {α : Type} {files : List α} {predicate : α → Bool}
    {getCmd : α → Except String (Option Cmd)} {cmds : List Cmd}
    (hcol : collectCmds predicate getCmd files = Except.ok cmds) (answer : String) :
    update_files files predicate getCmd answer = confirmExec cmds answer := by
  unfold update_files
  rw [hcol]

theorem update_files_err {α : Type} {files : List α} {predicate : α → Bool}
    {getCmd : α → Except String (Option Cmd)} {e : String}
    (hcol : collectCmds predicate getCmd files = Except.error e) (answer : String) :
    update_files files predicate getCmd answer = ⟨[], [], none, some e⟩ := by
  unfold update_files
  rw [hcol]

/-- C1 (counterexample): fault isolation fails.  With three accepted pending
commands where the 2nd's execute raises, `update_files` executes only the
1st; the 3rd is never attempted, contradicting the claim that the 1st and 3rd
both execute. -/
theorem update_files_no_fault_isolation_cex :
    (update_files
        [Cmd.mk "op1" none, Cmd.mk "op2" (some "FileNotFoundError"), Cmd.mk "op3" none]
        (fun _ => true) (fun c => Except.ok (some c)) "y").executed = ["op1"] ∧
    "op3" ∉ (update_files
        [Cmd.mk "op1" none, Cmd.mk "op2" (some "FileNotFoundError"), Cmd.mk "op3" none]
        (fun _ => true) (fun c => Except.ok (some c)) "y").executed := by
  refine ⟨by decide, by decide⟩

/-- C1 (amended): `update_files` has no per-command fault isolation.  When an
accepted batch is confirmed and some command's execute raises, the loop stops
there: exactly the commands before the failing one execute (and are
reported), the failing command and every subsequent one are not attempted,
the exception propagates out of `update_files`, and no summary is printed. -/
theorem update_files_stops_at_first_failure {α : Type} (files : List α)
    (predicate : α → Bool) (getCmd : α → Except String (Option Cmd)) (answer : String)
    (pre post : List Cmd) (c : Cmd) (e : String)
    (hcol : collectCmds predicate getCmd files = Except.ok (pre ++ c :: post))
    (hpre : ∀ d ∈ pre, d.failure = none) (hc : c.failure = some e)
    (hy : answerNorm answer = "y") :
    (update_files files predicate getCmd answer).executed
        = pre.map (·.operation_description) ∧
    (update_files files predicate getCmd answer).error = some e ∧
    (update_files files predicate getCmd answer).summary = none := by
  rw [update_files_ok hcol]
  unfold confirmExec
  rw [if_neg (by simp), if_pos hy, execLoop_append_fail hpre hc]
  exact ⟨rfl, rfl, rfl⟩

/-- Witness for C1's amended theorem: the concrete 3-command batch of the
counterexample, where only the first command's description is reported as
executed and the error propagates. -/
theorem update_files_stops_at_first_failure_witness :
    (update_files
        [Cmd.mk "op1" none, Cmd.mk "op2" (some "FileNotFoundError"), Cmd.mk "op3" none]
        (fun _ => true) (fun c => Except.ok (some c)) "y").executed
      = List.map (·.operation_description) [Cmd.mk "op1" none] ∧
    (update_files
        [Cmd.mk "op1" none, Cmd.mk "op2" (some "FileNotFoundError"), Cmd.mk "op3" none]
        (fun _ => true) (fun c => Except.ok (some c)) "y").error
      = some "FileNotFoundError" ∧
    (update_files
        [Cmd.mk "op1" none, Cmd.mk "op2" (some "FileNotFoundError"), Cmd.mk "op3" none]
        (fun _ => true) (fun c => Except.ok (some c)) "y").summary = none :=
  update_files_stops_at_first_failure
    [Cmd.mk "op1" none, Cmd.mk "op2" (some "FileNotFoundError"), Cmd.mk "op3" none]
    (fun _ => true) (fun c => Except.ok (some c)) "y"
    [Cmd.mk "op1" none] [Cmd.mk "op3" none] (Cmd.mk "op2" (some "FileNotFoundError"))
    "FileNotFoundError" rfl (by decide) rfl (by decide)

/-- C2: whenever `update_files` prints its final summary line, the count it
reports equals the number of commands whose execute succeeded (the summary is
only reached when the execution loop raised no exception, in which case every
collected command executed). -/
theorem update_files_summary_counts_succeeded {α : Type} (files : List α)
    (predicate : α → Bool) (getCmd : α → Except String (Option Cmd)) (answer : String)
    (n : Nat) (h : (update_files files predicate getCmd answer).summary = some n) :
    n = (update_files files predicate getCmd answer).executed.length ∧
    (update_files files predicate getCmd answer).error = none := by
  cases hcol : collectCmds predicate getCmd files with
  | error e =>
    rw [update_files_err hcol] at h
    cases h
  | ok cmds =>
    rw [update_files_ok hcol] at h ⊢
    unfold confirmExec at h ⊢
    by_cases hemp : cmds.isEmpty
    · rw [if_pos hemp] at h
      have h2 : (none : Option Nat) = some n := h
      cases h2
    · rw [if_neg hemp] at h ⊢
      by_cases hy : answerNorm answer = "y"
      · rw [if_pos hy] at h ⊢
        rcases hex : execLoop cmds with ⟨o1, e1, er⟩
        cases er with
        | some e =>
          rw [hex] at h
          have h2 : (none : Option Nat) = some n := h
          cases h2
        | none =>
          rw [hex] at h
          obtain ⟨hmap, _⟩ := execLoop_no_error hex
          have h2 : some cmds.length = some n := h
          have h3 : cmds.length = n := Option.some.inj h2
          refine ⟨?_, rfl⟩
          show n = e1.length
          rw [hmap, List.length_map, ← h3]
      · rw [if_neg hy] at h
        have h2 : (none : Option Nat) = some n := h
        cases h2

/-- Witness for C2 at a concrete all-succeeding 2-command batch whose summary
is `some 2`. -/
theorem update_files_summary_counts_succeeded_witness :
    (update_files [Cmd.mk "op1" none, Cmd.mk "op2" none]
        (fun _ => true) (fun c => Except.ok (some c)) "y").summary = some 2 ∧
    2 = (update_files [Cmd.mk "op1" none, Cmd.mk "op2" none]
        (fun _ => true) (fun c => Except.ok (some c)) "y").executed.length ∧
    (update_files [Cmd.mk "op1" none, Cmd.mk "op2" none]
        (fun _ => true) (fun c => Except.ok (some c)) "y").error = none :=
  ⟨by decide,
   (update_files_summary_counts_succeeded [Cmd.mk "op1" none, Cmd.mk "op2" none]
      (fun _ => true) (fun c => Except.ok (some c)) "y" 2 (by decide)).1,
   (update_files_summary_counts_succeeded [Cmd.mk "op1" none, Cmd.mk "op2" none]
      (fun _ => true) (fun c => Except.ok (some c)) "y" 2 (by decide)).2⟩

/-- C3: for a non-empty collected batch (of commands whose execute would
succeed), `update_files` executes the commands iff the operator's answer,
lower-cased and trimmed, equals `"y"`; on any other answer it reports
"The operation was aborted", executes nothing, prints no summary, and raises
nothing. -/
theorem update_files_confirmation_gate {α : Type} (files : List α)
    (predicate : α → Bool) (getCmd : α → Except String (Option Cmd)) (answer : String)
    (cmds : List Cmd) (hcol : collectCmds predicate getCmd files = Except.ok cmds)
    (hne : cmds ≠ []) (hok : ∀ c ∈ cmds, c.failure = none) :
    ((update_files files predicate getCmd answer).executed
        = cmds.map (·.operation_description) ↔ answerNorm answer = "y") ∧
    (answerNorm answer ≠ "y" →
      (update_files files predicate getCmd answer).executed = [] ∧
      "The operation was aborted" ∈ (update_files files predicate getCmd answer).output ∧
      (update_files files predicate getCmd answer).summary = none ∧
      (update_files files predicate getCmd answer).error = none) := by
  rw [update_files_ok hcol]
  unfold confirmExec
  rw [if_neg (by simp [hne])]
  by_cases hy : answerNorm answer = "y"
  · rw [if_pos hy, execLoop_all_ok hok]
    refine ⟨⟨fun _ => hy, fun _ => rfl⟩, fun hn => absurd hy hn⟩
  · rw [if_neg hy]
    refine ⟨⟨fun he => ?_, fun hyy => absurd hyy hy⟩, fun _ => ⟨rfl, ?_, rfl, rfl⟩⟩
    · exfalso
      have : cmds.map (·.operation_description) = [] := he.symm
      rw [List.map_eq_nil_iff] at this
      exact hne this
    · simp

/-- Witness for C3: a concrete 2-command batch declined with answer `"n"`. -/
theorem update_files_confirmation_gate_witness :
    ¬ (answerNorm "n" = "y") ∧
    (update_files [Cmd.mk "op1" none, Cmd.mk "op2" none]
        (fun _ => true) (fun c => Except.ok (some c)) "n").executed = [] ∧
    "The operation was aborted" ∈ (update_files [Cmd.mk "op1" none, Cmd.mk "op2" none]
        (fun _ => true) (fun c => Except.ok (some c)) "n").output ∧
    (update_files [Cmd.mk "op1" none, Cmd.mk "op2" none]
        (fun _ => true) (fun c => Except.ok (some c)) "n").summary = none ∧
    (update_files [Cmd.mk "op1" none, Cmd.mk "op2" none]
        (fun _ => true) (fun c => Except.ok (some c)) "n").error = none := by
  have h := (update_files_confirmation_gate [Cmd.mk "op1" none, Cmd.mk "op2" none]
      (fun _ => true) (fun c => Except.ok (some c)) "n"
      [Cmd.mk "op1" none, Cmd.mk "op2" none] rfl (by decide) (by decide)).2
      (by decide)
  exact ⟨by decide, h.1, h.2.1, h.2.2.1, h.2.2.2⟩

/-! ## Claim theorems: audio policies (C4, C6, C9) -/

theorem audioMetadataGetCommand_error_eq {f : WavFile} {e : String}
    (h : audioMetadataGetCommand f = Except.error e) :
    e = "Only 'wav' files are supported at the moment." := by
  unfold audioMetadataGetCommand at h
  by_cases hw : file_has_format f.name "wav" = true
  · rw [if_neg (by simp [hw])] at h
    by_cases ht : f.tags.isEmpty <;> simp [ht] at h
  · rw [if_pos (by simpa using hw)] at h
    exact (Except.error.inj h).symm

theorem collectCmds_metadata_error {fs : List WavFile} {pred : WavFile → Bool}
    (hbad : ∃ f ∈ fs, pred f = true ∧ file_has_format f.name "wav" = false) :
    collectCmds pred audioMetadataGetCommand fs
      = Except.error "Only 'wav' files are supported at the moment." := by
  induction fs with
  | nil =>
    obtain ⟨f, hf, _⟩ := hbad
    cases hf
  | cons g gs ih =>
    obtain ⟨f, hf, hpf, hwf⟩ := hbad
    rcases List.mem_cons.mp hf with rfl | hfgs
    · rw [collectCmds, if_pos hpf]
      have hg : audioMetadataGetCommand f
          = Except.error "Only 'wav' files are supported at the moment." := by
        unfold audioMetadataGetCommand
        rw [if_pos (by simp [hwf])]
      rw [hg]
    · by_cases hpg : pred g = true
      · rw [collectCmds, if_pos hpg]
        cases hg : audioMetadataGetCommand g with
        | error e =>
          show Except.error e = _
          rw [audioMetadataGetCommand_error_eq hg]
        | ok o =>
          cases o with
          | none => exact ih ⟨f, hfgs, hpf, hwf⟩
          | some c =>
            show (collectCmds pred audioMetadataGetCommand gs).map (c :: ·) = _
            rw [ih ⟨f, hfgs, hpf, hwf⟩]
            rfl
      · rw [collectCmds, if_neg (by simp [hpg])]
        exact ih ⟨f, hfgs, hpf, hwf⟩

/-- C6: a file outside the metadata getter's supported set (any non-WAV
file handed to `AudioMetadataDeleteCmdGetter`) makes `get_command` raise the
not-supported error, and `update_files` propagates it immediately during
discovery: no preview line is printed, no command executes, no summary is
printed, and the error escapes the whole batch. -/
theorem update_files_unsupported_format_aborts (fs : List WavFile)
    (predicate : WavFile → Bool) (answer : String)
    (hbad : ∃ f ∈ fs, predicate f = true ∧ file_has_format f.name "wav" = false) :
    (∀ f : WavFile, file_has_format f.name "wav" = false →
       audioMetadataGetCommand f
         = Except.error "Only 'wav' files are supported at the moment.") ∧
    update_files fs predicate audioMetadataGetCommand answer
      = ⟨[], [], none, some "Only 'wav' files are supported at the moment."⟩ := by
  constructor
  · intro f hf
    unfold audioMetadataGetCommand
    rw [if_pos (by simp [hf])]
  · exact update_files_err (collectCmds_metadata_error hbad) answer

/-- Witness for C6: a batch containing the non-WAV file `"loop.mp3"`. -/
theorem update_files_unsupported_format_aborts_witness :
    update_files [WavFile.mk "loop.mp3" [("k", "v")]] (fun _ => true)
        audioMetadataGetCommand "y"
      = ⟨[], [], none, some "Only 'wav' files are supported at the moment."⟩ :=
  (update_files_unsupported_format_aborts [WavFile.mk "loop.mp3" [("k", "v")]]
    (fun _ => true) "y"
    ⟨WavFile.mk "loop.mp3" [("k", "v")], List.mem_cons_self _ _, rfl, by decide⟩).2

/-- C4: `AudioScaling` computes its targets as minima — target sample rate
`= min R M_rate`, target sample width `= min W M_width` — so neither target
ever exceeds the current value, and a convert command is produced by
`AudioConversionCmdGetter.get_command` (equivalently, `needs_rescaling` is
true) iff the target rate differs from `R` or the target width differs from
`W`. -/
theorem audioScaling_downgrade_only (audio : AudioSegment) (target : AudioTargetOutput)
    (file : String) :
    (AudioScaling.mk audio target).target_sample_rate_hertz
        = min audio.frame_rate target.max_sample_rate_hertz ∧
    (AudioScaling.mk audio target).target_sample_width_bytes
        = min audio.sample_width target.max_sample_width_bytes ∧
    (AudioScaling.mk audio target).target_sample_rate_hertz ≤ audio.frame_rate ∧
    (AudioScaling.mk audio target).target_sample_width_bytes ≤ audio.sample_width ∧
    ((AudioScaling.mk audio target).needs_rescaling = true ↔
      ((AudioScaling.mk audio target).target_sample_rate_hertz ≠ audio.frame_rate ∨
       (AudioScaling.mk audio target).target_sample_width_bytes ≠ audio.sample_width)) ∧
    (audioConversionGetCommand target file audio).isSome
        = (AudioScaling.mk audio target).needs_rescaling := by
  refine ⟨rfl, rfl, Nat.min_le_left _ _, Nat.min_le_left _ _, ?_, ?_⟩
  · unfold AudioScaling.needs_rescaling
    rw [Bool.or_eq_true, bne_iff_ne, bne_iff_ne]
    tauto
  · unfold audioConversionGetCommand
    by_cases h : (AudioScaling.mk audio target).needs_rescaling = true
    · rw [if_pos h, h]
      rfl
    · rw [if_neg h, Bool.eq_false_iff.mpr h]
      rfl

/-- C9: a file already satisfying its policy yields the no-operation
sentinel: a name the rule chain leaves unchanged gives `get_command = none`
for the rename getter; audio already within the target caps gives
`get_command = none` for the conversion getter; a WAV file with an empty tag
container gives `get_command = none` for the metadata getter.  No no-op
command is ever handed to the orchestrator. -/
theorem getters_return_none_when_satisfied :
    (∀ (chain : List (String → String)) (name : String),
       chainApply chain name = name → renameGetCommand chain name = none) ∧
    (∀ (target : AudioTargetOutput) (file : String) (audio : AudioSegment),
       (AudioScaling.mk audio target).needs_rescaling = false →
       audioConversionGetCommand target file audio = none) ∧
    (∀ f : WavFile, file_has_format f.name "wav" = true → f.tags = [] →
       audioMetadataGetCommand f = Except.ok none) := by
  refine ⟨?_, ?_, ?_⟩
  · intro chain name h
    unfold renameGetCommand
    rw [if_neg (by simp [h])]
  · intro target file audio h
    unfold audioConversionGetCommand
    rw [if_neg (by simp [h])]
  · intro f hw ht
    unfold audioMetadataGetCommand
    rw [if_neg (by simp [hw]), if_neg (by simp [ht])]

/-- Witness for C9: an empty rule chain, an audio file already at
44100 Hz / 16-bit under the Alesis caps, and a tag-free WAV file. -/
theorem getters_return_none_when_satisfied_witness :
    renameGetCommand [] "Clean.wav" = none ∧
    audioConversionGetCommand ALESIS_STRIKE_MULTIPAD_TARGET_OUTPUT "clean.wav"
        (AudioSegment.mk 44100 2) = none ∧
    audioMetadataGetCommand (WavFile.mk "clean.wav" []) = Except.ok none :=
  ⟨getters_return_none_when_satisfied.1 [] "Clean.wav" rfl,
   getters_return_none_when_satisfied.2.1 ALESIS_STRIKE_MULTIPAD_TARGET_OUTPUT
     "clean.wav" (AudioSegment.mk 44100 2) (by decide),
   getters_return_none_when_satisfied.2.2 (WavFile.mk "clean.wav" []) (by decide) rfl⟩

/-! ## Claim theorems: rename execution against the filesystem (C5) -/

theorem fsLookup_eq_none_of_all {l : FileSys} {path : String}
    (h : ∀ p ∈ l, p.1 ≠ path) : fsLookup l path = none := by
  induction l with
  | nil => rfl
  | cons p rest ih =>
    rw [fsLookup]
    rw [if_neg (h p (List.mem_cons_self p rest))]
    exact ih fun q hq => h q (List.mem_cons_of_mem p hq)

theorem fsLookup_append_of_none {l1 l2 : FileSys} {path : String}
    (h : fsLookup l1 path = none) :
    fsLookup (l1 ++ l2) path = fsLookup l2 path := by
  induction l1 with
  | nil => rfl
  | cons p rest ih =>
    rw [fsLookup] at h
    by_cases hp : p.1 = path
    · rw [if_pos hp] at h
      cases h
    · rw [if_neg hp] at h
      rw [List.cons_append, fsLookup]
      show (if p.1 = path then some p.2 else _) = _
      rw [if_neg hp]
      exact ih h

/-- C5 (counterexample): executing a rename command whose destination file
already exists does not fail: with `"b.wav"` present (content `"B"`),
renaming `"a.wav"` (content `"A"`) onto it succeeds and the destination's
previous content is silently replaced. -/
theorem cmdRenameFileExecute_no_collision_error_cex :
    fsLookup [("a.wav", "A"), ("b.wav", "B")] "b.wav" = some "B" ∧
    cmdRenameFileExecute [("a.wav", "A"), ("b.wav", "B")] ⟨"a.wav", "b.wav"⟩
      = Except.ok [("b.wav", "A")] := by
  refine ⟨by decide, rfl⟩

/-- C5 (amended): `CmdRenameFile.execute` calls the POSIX `os.rename`
primitive, which does not fail when a regular file exists at the destination:
for every filesystem holding both source and destination, execute returns
successfully, the destination afterwards holds the source's content (its old
content is lost), and the source entry is gone. -/
theorem cmdRenameFileExecute_overwrites (fs : FileSys) (src dst cs cd : String)
    (hs : fsLookup fs src = some cs) (_hd : fsLookup fs dst = some cd)
    (hne : src ≠ dst) :
    ∃ fs', cmdRenameFileExecute fs ⟨src, dst⟩ = Except.ok fs' ∧
      fsLookup fs' dst = some cs ∧ fsLookup fs' src = none := by
  refine ⟨(fs.filter fun p => p.1 != src && p.1 != dst) ++ [(dst, cs)], ?_, ?_, ?_⟩
  · show osRename fs src dst = _
    unfold osRename
    rw [hs]
  · rw [fsLookup_append_of_none (fsLookup_eq_none_of_all ?_)]
    · show (if dst = dst then some cs else fsLookup [] dst) = some cs
      rw [if_pos rfl]
    · intro p hp
      have := List.of_mem_filter hp
      simp only [Bool.and_eq_true, bne_iff_ne] at this
      exact this.2
  · rw [fsLookup_append_of_none (fsLookup_eq_none_of_all ?_)]
    · show (if dst = src then some cs else fsLookup [] src) = none
      rw [if_neg (fun h => hne h.symm)]
      rfl
    · intro p hp
      have := List.of_mem_filter hp
      simp only [Bool.and_eq_true, bne_iff_ne] at this
      exact this.1

/-- Witness for C5's amended theorem at the counterexample's filesystem. -/
theorem cmdRenameFileExecute_overwrites_witness :
    ∃ fs', cmdRenameFileExecute [("a.wav", "A"), ("b.wav", "B")] ⟨"a.wav", "b.wav"⟩
        = Except.ok fs' ∧
      fsLookup fs' "b.wav" = some "A" ∧ fsLookup fs' "a.wav" = none :=
  cmdRenameFileExecute_overwrites [("a.wav", "A"), ("b.wav", "B")] "a.wav" "b.wav"
    "A" "B" (by decide) (by decide) (by decide)

/-! ## Claim theorems: the Pattern-Replace collision loop (C8, C10) -/

theorem regexReplaceFormatter_matched {patterns : List ((String → Bool) × (String → String))}
    {ex : String → Bool} {fuel : Nat} {name s : String}
    (hmatch : firstMatch patterns name = some s) (hs : s ≠ "") :
    regexReplaceFormatter patterns ex fuel name
      = (bumpLoop ex s (suffixNorm name) fuel 0).map Prod.fst := by
  unfold regexReplaceFormatter
  rw [hmatch]
  show (if s = "" then some name else (bumpLoop ex s (suffixNorm name) fuel 0).map Prod.fst) = _
  rw [if_neg hs]

theorem bumpLoop_finds (ex : String → Bool) (stemNew suffix : String) :
    ∀ (n c : Nat), 1 ≤ n →
    (∀ j, c < j → j < c + n → ex (bumpFileName stemNew suffix j) = true) →
    ex (bumpFileName stemNew suffix (c + n)) = false →
    bumpLoop ex stemNew suffix n c
      = some (bumpFileName stemNew suffix (c + n), c + n) := by
  intro n
  induction n with
  | zero => intro c h; omega
  | succ m ih =>
    intro c _ hbusy hfree
    rw [bumpLoop]
    by_cases hm : m = 0
    · subst hm
      rw [if_neg (by rw [show c + 1 = c + 1 from rfl]; simpa using hfree)]
    · have h1 : ex (bumpFileName stemNew suffix (c + 1)) = true :=
        hbusy (c + 1) (by omega) (by omega)
      rw [if_pos h1]
      have := ih (c + 1) (by omega)
        (fun j hj1 hj2 => hbusy j (by omega) (by omega))
        (by rw [show c + 1 + m = c + (m + 1) from by omega]; exact hfree)
      rw [this]
      rw [show c + 1 + m = c + (m + 1) from by omega]

theorem bumpLoop_some {ex : String → Bool} {stemNew suffix : String} :
    ∀ {fuel c : Nat} {nm : String} {k : Nat},
    bumpLoop ex stemNew suffix fuel c = some (nm, k) →
    nm = bumpFileName stemNew suffix k ∧ ex nm = false ∧ c < k := by
  intro fuel
  induction fuel with
  | zero => intro c nm k h; cases h
  | succ m ih =>
    intro c nm k h
    rw [bumpLoop] at h
    by_cases hex : ex (bumpFileName stemNew suffix (c + 1)) = true
    · rw [if_pos hex] at h
      obtain ⟨h1, h2, h3⟩ := ih h
      exact ⟨h1, h2, by omega⟩
    · rw [if_neg hex] at h
      simp only [Option.some.injEq, Prod.mk.injEq] at h
      obtain ⟨h1, h2⟩ := h
      subst h2
      exact ⟨h1.symm, by rw [← h1]; simpa using hex, by omega⟩

/-- C8: when the first matching pattern's (non-empty) replacement template is
instantiated, counting starts at `count = 1`, and while the produced name
exists on disk the counter is incremented and the template re-instantiated;
the formatter returns the first non-colliding name. -/
theorem regexReplaceFormatter_first_free (patterns : List ((String → Bool) × (String → String)))
    (ex : String → Bool) (name s : String) (k : Nat)
    (hmatch : firstMatch patterns name = some s) (hs : s ≠ "") (hk : 1 ≤ k)
    (hbusy : ∀ j, j < k → 1 ≤ j → ex (bumpFileName s (suffixNorm name) j) = true)
    (hfree : ex (bumpFileName s (suffixNorm name) k) = false) :
    regexReplaceFormatter patterns ex k name
      = some (bumpFileName s (suffixNorm name) k) := by
  rw [regexReplaceFormatter_matched hmatch hs]
  rw [bumpLoop_finds ex s (suffixNorm name) k 0 hk
    (fun j hj1 hj2 => hbusy j (by omega) (by omega)) (by simpa using hfree)]
  simp

/-- Witness for C8: the spec's example.  The pattern rewrites
`"take!.wav"` to the template `"take_{count}.wav"`; `"take_1.wav"` already
exists on disk, so the returned name is `"take_2.wav"`, not `"take_1.wav"`. -/
theorem regexReplaceFormatter_first_free_witness :
    bumpFileName "take_{count}.wav" (suffixNorm "take!.wav") 2 = "take_2.wav" ∧
    regexReplaceFormatter [(fun n => n == "take!.wav", fun _ => "take_{count}.wav")]
        (fun n => n == "take_1.wav") 2 "take!.wav"
      = some (bumpFileName "take_{count}.wav" (suffixNorm "take!.wav") 2) :=
  ⟨by decide,
   regexReplaceFormatter_first_free
     [(fun n => n == "take!.wav", fun _ => "take_{count}.wav")]
     (fun n => n == "take_1.wav") "take!.wav" "take_{count}.wav" 2
     rfl (by decide) (by decide) (by decide) (by decide)⟩

theorem fmtCount_of_no_placeholder (n : Nat) :
    ∀ l : List Char, hasCountPlaceholder l = false → fmtCount n l = l := by
  intro l
  induction l using hasCountPlaceholder.induct with
  | case1 rest =>
    intro h
    rw [hasCountPlaceholder] at h
    cases h
  | case2 c rest hne ih =>
    intro h
    have hrest : hasCountPlaceholder rest = false := by
      rw [hasCountPlaceholder.eq_def] at h
      split at h
      · cases h
      · rename_i heq
        injection heq with e1 e2
        rw [e2]
        exact h
      · rename_i heq
        cases heq
    have hfc : fmtCount n (c :: rest) = c :: fmtCount n rest := by
      rw [fmtCount.eq_def]
      split
      · rename_i rest1 heq
        exfalso
        injection heq with h1 h2
        exact hne rest1 h1 h2
      · rename_i heq
        injection heq with e1 e2
        rw [← e1, ← e2]
      · rename_i heq
        cases heq
    rw [hfc, ih hrest]
  | case3 =>
    intro _
    rfl

/-- C10: the collision loop of the Pattern-Replace formatter need not
terminate.  If the first matching pattern's non-empty template contains no
`{count}` placeholder, `bump_file_name` produces the same name at every
counter value; if that single name exists on disk, the loop never returns
(the fuel-indexed embedding yields `none` for every fuel bound).  In general,
the matched branch terminates for some fuel iff incrementing the counter
eventually produces a name that does not exist. -/
theorem regexReplaceFormatter_nontermination
    (patterns : List ((String → Bool) × (String → String))) (ex : String → Bool)
    (name s : String) (hmatch : firstMatch patterns name = some s) (hs : s ≠ "") :
    (hasCountPlaceholder s.data = false →
       ex (bumpFileName s (suffixNorm name) 1) = true →
       ∀ fuel, regexReplaceFormatter patterns ex fuel name = none) ∧
    ((∃ fuel r, regexReplaceFormatter patterns ex fuel name = some r) ↔
       (∃ k, 1 ≤ k ∧ ex (bumpFileName s (suffixNorm name) k) = false)) := by
  have hconst : hasCountPlaceholder s.data = false →
      ∀ j k : Nat, bumpFileName s (suffixNorm name) j
        = bumpFileName s (suffixNorm name) k := by
    intro hnc j k
    unfold bumpFileName pyFormatCount
    rw [fmtCount_of_no_placeholder j s.data hnc, fmtCount_of_no_placeholder k s.data hnc]
  constructor
  · intro hnc hbusy fuel
    rw [regexReplaceFormatter_matched hmatch hs]
    have hnone : ∀ (f c : Nat), bumpLoop ex s (suffixNorm name) f c = none := by
      intro f
      induction f with
      | zero => intro c; rfl
      | succ m ih =>
        intro c
        rw [bumpLoop]
        rw [if_pos (by rw [hconst hnc (c + 1) 1]; exact hbusy)]
        exact ih (c + 1)
    rw [hnone fuel 0]
    rfl
  · constructor
    · rintro ⟨fuel, r, hr⟩
      rw [regexReplaceFormatter_matched hmatch hs] at hr
      cases hb : bumpLoop ex s (suffixNorm name) fuel 0 with
      | none => rw [hb] at hr; cases hr
      | some p =>
        obtain ⟨h1, h2, h3⟩ := bumpLoop_some hb
        exact ⟨p.2, by omega, by rw [← h1]; exact h2⟩
    · intro hex
      have hdec : ∃ k, 1 ≤ k ∧ ex (bumpFileName s (suffixNorm name) k) = false := hex
      have hk0 := Nat.find_spec hdec
      refine ⟨Nat.find hdec, bumpFileName s (suffixNorm name) (Nat.find hdec), ?_⟩
      rw [regexReplaceFormatter_matched hmatch hs]
      rw [bumpLoop_finds ex s (suffixNorm name) (Nat.find hdec) 0 hk0.1 ?_ (by simpa using hk0.2)]
      · simp
      · intro j hj1 hj2
        have hlt : j < Nat.find hdec := by omega
        have := Nat.find_min hdec hlt
        simp only [not_and] at this
        have h2 := this (by omega)
        simpa using h2

/-- Witness for C10: a pattern rewriting `"dup!.wav"` to the constant
template `"clash.wav"` (no `{count}` placeholder) while `"clash.wav"` exists:
the loop returns `none` at fuel 3; and the termination criterion is
equivalent to the existence of a free name (here: false for the all-existing
oracle). -/
theorem regexReplaceFormatter_nontermination_witness :
    regexReplaceFormatter [(fun n => n == "dup!.wav", fun _ => "clash.wav")]
        (fun _ => true) 3 "dup!.wav" = none :=
  (regexReplaceFormatter_nontermination
    [(fun n => n == "dup!.wav", fun _ => "clash.wav")] (fun _ => true)
    "dup!.wav" "clash.wav" rfl (by decide)).1 (by decide) (by decide) 3

end Organizer
